import Mathlib

/-!
Verification of the prozess-client protocol engine (src/client.ts) against its
natural-language specification.

The development shallowly embeds the code: byte buffers are `List Nat` with one
entry per byte, the incremental frame decoder (`readCursor` / `tryReadOne`) is a
pure function from a buffer to a result, the per-connection dispatcher state is
an explicit structure, and callback invocations are recorded in event logs so
that ordering and exactly-once properties can be stated as list equalities.
-/

namespace Prozess

/-- A byte buffer: one `Nat` per byte (values < 256 on real inputs). -/
abbrev Bytes := List Nat

/-- `buf.readUInt8(i)`: byte at offset `i` (reads are always guarded by length
checks in the decoder, so the out-of-range default is never observed). -/
def byteAt (buf : Bytes) (i : Nat) : Nat := buf.getD i 0

/-- `buf.readUInt16LE(i)`. -/
def readUInt16at (buf : Bytes) (i : Nat) : Nat :=
  byteAt buf i + 256 * byteAt buf (i + 1)

/-- `buf.readUInt32LE(i)`. -/
def readUInt32at (buf : Bytes) (i : Nat) : Nat :=
  byteAt buf i + 256 * byteAt buf (i + 1) + 65536 * byteAt buf (i + 2)
    + 16777216 * byteAt buf (i + 3)

/-- `readCursor.readUInt64`: reads the low 32-bit word and then reads and
discards the high word (the cursor advances 8 bytes; see `decodeOne`). -/
def readUInt64at (buf : Bytes) (i : Nat) : Nat := readUInt32at buf i

/-- `0xffffffff`, the sentinel confirm version signalling a version conflict. -/
def VERSION_CONFLICT : Nat := 0xffffffff

/-- Default `maxbytes` for subscribe requests (1 MiB). -/
def DEFAULT_SUB_SIZE : Nat := 1024 * 1024

/-- A decoded event record (the `Event` interface of client.ts; `size` is
implicit as `data.length`). `version` is the client-computed base version. -/
structure Event where
  version : Int
  crc32 : Nat
  batch_size : Nat
  flags : Nat
  data : Bytes
deriving DecidableEq

/-- Result of one incremental decode attempt: not enough bytes buffered yet,
a fatal protocol violation (a thrown assertion / unknown message type), or a
successful parse. -/
inductive ReadRes (α : Type) where
  | insufficient
  | fatal
  | ok (a : α)
deriving DecidableEq

/-- `readCursor.readEvent(base_version)` at cursor position `pos`: requires the
12 header bytes (`size:u32, crc32:u32, batch_size:u16, proto_v:u8, flags:u8`),
asserts `proto_v = 0`, then requires `size` payload bytes. Returns the record
and the new cursor position; `insufficient` consumes nothing at the buffer
level (the caller discards the cursor). -/
def readEvent (buf : Bytes) (pos : Nat) (base_version : Int) : ReadRes (Event × Nat) :=
  if buf.length - pos < 12 then .insufficient
  else if byteAt buf (pos + 10) ≠ 0 then .fatal
  else if buf.length - (pos + 12) < readUInt32at buf pos then .insufficient
  else .ok ({ version := base_version
            , crc32 := readUInt32at buf (pos + 4)
            , batch_size := readUInt16at buf (pos + 8)
            , flags := byteAt buf (pos + 11)
            , data := (buf.drop (pos + 12)).take (readUInt32at buf pos) },
            pos + 12 + readUInt32at buf pos)

theorem readEvent_bounds {buf : Bytes} {pos : Nat} {v : Int} {e : Event} {p : Nat}
    (h : readEvent buf pos v = .ok (e, p)) :
    pos + 12 ≤ p ∧ p ≤ buf.length := by
  unfold readEvent at h
  split at h
  · exact absurd h (by simp)
  · split at h
    · exact absurd h (by simp)
    · split at h
      · exact absurd h (by simp)
      · simp only [ReadRes.ok.injEq, Prod.mk.injEq] at h
        omega

/-- The record loop inside the `Subscribe` branch of `tryReadOne`: decode
back-to-back records while `cursor.n - start < size`, threading the running
version `v_next`. A record that fails to decode trips `assert(evt)` (fatal). -/
def readRecords (buf : Bytes) (start pos size : Nat) (v_next : Int) :
    ReadRes (List Event × Nat × Int) :=
  if size ≤ pos - start then .ok ([], pos, v_next)
  else match h : readEvent buf pos v_next with
    | .ok (e, pos') =>
      match readRecords buf start pos' size (v_next + (e.batch_size : Int)) with
      | .ok (es, p, v) => .ok (e :: es, p, v)
      | .fatal => .fatal
      | .insufficient => .insufficient
    | .insufficient => .fatal
    | .fatal => .fatal
termination_by size + start - pos
decreasing_by
  have hb := readEvent_bounds h
  omega

/-- A decoded inbound frame (the five `ServerMsgType` cases). `subscribeResp`
carries the already-decoded record list and the running end version `v_next`
computed from `v_start`. -/
inductive ServerMsg where
  | hello (proto_v : Nat) (src : Bytes)
  | event (e : Event)
  | eventConfirm (version : Nat)
  | subscribeResp (v_start size flags : Nat) (events : List Event) (v_next : Int)
  | subscribeEnd
deriving DecidableEq

/-- One attempt of `tryReadOne`, decode half: parse one whole frame from the
front of the accumulation buffer. `esv` is the current `eventstream_version`
(used to stamp standalone Event records, exactly as the source passes it to
`readEvent`). Returns the frame and the number of bytes consumed. -/
def decodeOne (esv : Int) (buf : Bytes) : ReadRes (ServerMsg × Nat) :=
  if buf.length < 1 then .insufficient
  else if byteAt buf 0 = 0 then
    -- Hello: proto_v byte + 8 source bytes
    if buf.length - 1 < 1 + 8 then .insufficient
    else .ok (.hello (byteAt buf 1) ((buf.drop 2).take 8), 10)
  else if byteAt buf 0 = 1 then
    -- Event: one record, stamped with the current stream version
    match readEvent buf 1 esv with
    | .insufficient => .insufficient
    | .fatal => .fatal
    | .ok (e, n) => .ok (.event e, n)
  else if byteAt buf 0 = 2 then
    -- EventConfirm: proto_v byte + u64 version (low 32 bits kept)
    if buf.length - 1 < 1 + 8 then .insufficient
    else .ok (.eventConfirm (readUInt64at buf 2), 10)
  else if byteAt buf 0 = 3 then
    -- Subscribe: proto_v, v_start:u64, size:u64, flags, then `size` bytes of records
    if buf.length - 1 < 1 + 8 + 8 + 1 then .insufficient
    else if buf.length - 19 < readUInt64at buf 10 then .insufficient
    else match readRecords buf 19 19 (readUInt64at buf 10) ((readUInt64at buf 2 : Nat) : Int) with
      | .ok (events, n, v_next) =>
        .ok (.subscribeResp (readUInt64at buf 2) (readUInt64at buf 10) (byteAt buf 18) events v_next, n)
      | _ => .fatal
  else if byteAt buf 0 = 4 then
    -- SubscribeEnd: just the proto_v byte
    if buf.length - 1 < 1 then .insufficient
    else .ok (.subscribeEnd, 2)
  else .fatal

/-! ## Dispatcher state (the per-connection closure of `connectRaw`) -/

/-- How a send callback is completed: a confirmed version, a
`VersionConflictError`, or a `ClosedBeforeConfirmError`. -/
inductive Outcome where
  | confirmed (v : Nat)
  | versionConflict
  | closedBeforeConfirm
deriving DecidableEq

/-- The `SubCbData` record delivered to subscribe callbacks. -/
structure SubCbData where
  v_start : Int
  v_end : Int
  size : Nat
  oneshot : Bool
  complete : Bool
  current : Bool
  events : List Event
deriving DecidableEq

/-- `mergeSubCbData(a, b)`: keep `a`'s `v_start`/`oneshot`, take `b`'s
`v_end`/`complete`, add sizes, OR the `current` flags, concatenate events. -/
def mergeSubCbData (a : Option SubCbData) (b : SubCbData) : SubCbData :=
  match a with
  | none => b
  | some a =>
    { a with v_end := b.v_end, size := a.size + b.size, complete := b.complete
           , current := a.current || b.current, events := a.events ++ b.events }

/-- Per-connection dispatcher state. Callbacks are identified by `Nat` tokens;
invocations are recorded in logs (`delivered`, `oneshotDelivered`,
`subDelivered`, `onevents_log`) so that ordering and exactly-once properties
are list equalities. `writes` records subscribe frames written by the
auto-resubscribe path as `(flags, from, maxbytes)` triples. -/
structure DState where
  eventstream_version : Int
  sendcbs : List Nat
  oneshotCbs : List Nat
  subCb : Option Nat
  subCbData : Option SubCbData
  resub : Bool
  connected : Bool
  source : Option Bytes
  delivered : List (Nat × Outcome)
  oneshotDelivered : List (Nat × SubCbData)
  subDelivered : List (Nat × SubCbData)
  onevents_log : List (List Event × Int)
  unsubscribes : Nat
  closeNotifies : Nat
  writes : List (Nat × Int × Nat)
deriving DecidableEq

/-- The dispatcher state right after the socket connects. -/
def initState : DState :=
  { eventstream_version := -1, sendcbs := [], oneshotCbs := [], subCb := none
  , subCbData := none, resub := false, connected := true, source := none
  , delivered := [], oneshotDelivered := [], subDelivered := []
  , onevents_log := [], unsubscribes := 0, closeNotifies := 0, writes := [] }

/-- `onUnsubscribe()`: reset the stream version, `assert(resub === false)`
(fault if it fails), fire the owner's unsubscribe hook. -/
def onUnsubscribe (s : DState) : Option DState :=
  if s.resub then none
  else some { s with eventstream_version := -1, unsubscribes := s.unsubscribes + 1 }

/-- Dispatch half of `tryReadOne`: apply one decoded frame to the dispatcher
state. `none` models a thrown error (calling an absent callback, or a failed
assertion). Does not touch the byte buffer. -/
def applyMsg (s : DState) : ServerMsg → Option DState
  | .hello _ src => some { s with source := some src }
  | .event e =>
    let v := s.eventstream_version + (e.batch_size : Int)
    some { s with eventstream_version := v, onevents_log := s.onevents_log ++ [([e], v)] }
  | .eventConfirm v =>
    match s.sendcbs with
    | [] => none
    | c :: rest =>
      some { s with
              sendcbs := rest
              delivered := s.delivered ++
               [(c, if v = VERSION_CONFLICT then Outcome.versionConflict else Outcome.confirmed v)] }
  | .subscribeResp v_start size flags events v_next =>
    let oneshot := flags &&& 1 ≠ 0
    let complete := flags &&& 2 ≠ 0
    let current := flags &&& 4 ≠ 0
    let s1 := if oneshot then s
              else { s with
                      eventstream_version := v_next
                      onevents_log := s.onevents_log ++ [(events, v_next)] }
    let data : SubCbData :=
      { v_start := (v_start : Int), v_end := v_next, size := size
      , oneshot := oneshot, complete := complete, current := current, events := events }
    if oneshot then
      match s1.oneshotCbs with
      | [] => none
      | c :: rest =>
        some { s1 with oneshotCbs := rest, oneshotDelivered := s1.oneshotDelivered ++ [(c, data)] }
    else
      let merged := mergeSubCbData s1.subCbData data
      if s1.resub ∧ ¬current then
        -- subscribeRaw(0, eventstream_version, DEFAULT_SUB_SIZE); break
        some { s1 with
                subCbData := some merged
                writes := s1.writes ++ [(0, v_next, DEFAULT_SUB_SIZE)] }
      else
        match s1.subCb with
        | none => none
        | some c =>
          let s2 := { s1 with
                       subCb := none, subCbData := none, resub := false
                       subDelivered := s1.subDelivered ++ [(c, merged)] }
          if complete then onUnsubscribe s2 else some s2
  | .subscribeEnd => onUnsubscribe s

/-- `onClose`: notify the owner at most once (guarded by `connected`), then
fail every still-pending send callback with `ClosedBeforeConfirmError` and
clear the queue. The callback sweep itself is not guarded — it just finds an
empty queue on repeat invocations. -/
def onClose (s : DState) : DState :=
  let s1 := if s.connected
            then { s with connected := false, closeNotifies := s.closeNotifies + 1 }
            else s
  { s1 with delivered := s1.delivered ++ s1.sendcbs.map (fun c => (c, Outcome.closedBeforeConfirm))
          , sendcbs := [] }

/-- Dispatcher-level operations: a `sendRaw` call (pushes a confirm callback),
receipt of a decoded frame, or a socket close/end/error notification. -/
inductive DOp where
  | sendRaw (cbid : Nat)
  | recv (m : ServerMsg)
  | closeEvt
deriving DecidableEq

/-- One dispatcher step. `sendRaw` appends its callback to `sendcbs` (the frame
write itself is not relevant to the claims). -/
def dstep (s : DState) : DOp → Option DState
  | .sendRaw c => some { s with sendcbs := s.sendcbs ++ [c] }
  | .recv m => applyMsg s m
  | .closeEvt => some (onClose s)

/-- Run a sequence of dispatcher operations; `none` as soon as one faults. -/
def drun (s : DState) : List DOp → Option DState
  | [] => some s
  | op :: ops =>
    match dstep s op with
    | none => none
    | some s' => drun s' ops

theorem readRecords_bounds {buf : Bytes} {start size : Nat} {es : List Event}
    {v' : Int} : ∀ {v : Int} {pos p : Nat}, pos ≤ buf.length →
    readRecords buf start pos size v = .ok (es, p, v') →
    pos ≤ p ∧ p ≤ buf.length := by
  induction es with
  | nil =>
    intro v pos p hpos h
    unfold readRecords at h
    split at h
    · simp only [ReadRes.ok.injEq, Prod.mk.injEq] at h
      omega
    · split at h
      · split at h
        · simp at h
        · simp at h
        · simp at h
      · simp at h
      · simp at h
  | cons e es ih =>
    intro v pos p hpos h
    unfold readRecords at h
    split at h
    · simp at h
    · split at h
      · rename_i e' pos' hre
        split at h
        · rename_i es0 p0 v0 hrec
          simp only [ReadRes.ok.injEq, Prod.mk.injEq, List.cons.injEq] at h
          obtain ⟨⟨he, hes⟩, hp, hv⟩ := h
          subst hes hp hv
          have hb := readEvent_bounds hre
          have := ih (show pos' ≤ buf.length by omega) hrec
          omega
        · simp at h
        · simp at h
      · simp at h
      · simp at h

theorem decodeOne_bounds {esv : Int} {buf : Bytes} {m : ServerMsg} {n : Nat}
    (h : decodeOne esv buf = .ok (m, n)) : 1 ≤ n ∧ n ≤ buf.length := by
  unfold decodeOne at h
  split at h
  · simp at h
  · split at h
    · -- Hello
      split at h
      · simp at h
      · simp only [ReadRes.ok.injEq, Prod.mk.injEq] at h
        omega
    · split at h
      · -- Event
        split at h
        · simp at h
        · simp at h
        · rename_i e n' hre
          simp only [ReadRes.ok.injEq, Prod.mk.injEq] at h
          have := readEvent_bounds hre
          omega
      · split at h
        · -- EventConfirm
          split at h
          · simp at h
          · simp only [ReadRes.ok.injEq, Prod.mk.injEq] at h
            omega
        · split at h
          · -- Subscribe
            split at h
            · simp at h
            · split at h
              · simp at h
              · split at h
                · rename_i events n' vn hrec
                  simp only [ReadRes.ok.injEq, Prod.mk.injEq] at h
                  have hb := readRecords_bounds (show 19 ≤ buf.length by omega) hrec
                  omega
                · simp at h
          · split at h
            · -- SubscribeEnd
              split at h
              · simp at h
              · simp only [ReadRes.ok.injEq, Prod.mk.injEq] at h
                omega
            · simp at h

/-- The `while(1) { if (!tryReadOne()) break }` loop of the `'data'` handler:
decode and dispatch frames until the first `insufficient` attempt (which leaves
the dispatcher state and the buffer exactly as they are), consuming the decoded
bytes after each success. `none` models a thrown error (fatal decode or
dispatch fault). -/
def drain (s : DState) (buf : Bytes) : Option (DState × Bytes) :=
  match h : decodeOne s.eventstream_version buf with
  | .insufficient => some (s, buf)
  | .fatal => none
  | .ok (m, n) =>
    match applyMsg s m with
    | none => none
    | some s' => drain s' (buf.drop n)
termination_by buf.length
decreasing_by
  have := decodeOne_bounds h
  simp only [List.length_drop]
  omega

/-- The `'data'` socket handler: append the arriving chunk to the accumulation
buffer, then drain. -/
def processData (s : DState) (buf chunk : Bytes) : Option (DState × Bytes) :=
  drain s (buf ++ chunk)

/-! ## Range aggregator: `getEventsRaw(from, to)` -/

/-- The end-trimming loop of `getEventsRaw`, phrased structurally on the
reversed event list (popping from the back of `events` is consuming the front
of `events.reverse`): while the next popped event's version is `< to`, pop it
and record its version as the new `v_end`. -/
def trimRev (to_ : Int) : List Event → Int → List Event × Int
  | [], v_end => ([], v_end)
  | e :: rest, v_end =>
    if e.version < to_ then trimRev to_ rest e.version
    else (e :: rest, v_end)

/-- `while (events.length > 0 && events[events.length - 1].version < to)
   aggregateData.v_end = events.pop()!.version`:
returns the surviving events (in original order) and the final `v_end`. -/
def trimLoop (to_ : Int) (events : List Event) (v_end : Int) : List Event × Int :=
  ((trimRev to_ events.reverse v_end).1.reverse, (trimRev to_ events.reverse v_end).2)

/-- The `getNext` recursion of `getEventsRaw(from, to)`, with the successive
one-shot subscribe responses supplied as an oracle list (each list element is
the `SubCbData` of one round). Merge each response into the accumulator; stop
when `to === -1`, or `to >= 0 && to <= v_end`, or `current`; on stopping with
`to > 0`, run the trim loop. `none` means the oracle ran out (still waiting on
the server). -/
def getEventsLoop (to_ : Int) (agg : Option SubCbData) :
    List SubCbData → Option SubCbData
  | [] => none
  | d :: rest =>
    let a := mergeSubCbData agg d
    if to_ = -1 ∨ (0 ≤ to_ ∧ to_ ≤ a.v_end) ∨ a.current then
      some (if 0 < to_ then
              { a with events := (trimLoop to_ a.events a.v_end).1
                     , v_end := (trimLoop to_ a.events a.v_end).2 }
            else a)
    else getEventsLoop to_ (some a) rest

/-- `getEventsRaw(from, to)` as a function of the one-shot response sequence.
(`from` only determines the first request's start version, which the oracle
abstracts; the accumulation itself never reads it.) -/
def getEventsRawModel (from_ to_ : Int) (responses : List SubCbData) :
    Option SubCbData :=
  getEventsLoop to_ none responses

/-! ## Outbound subscribe frames and `getVersion` -/

/-- JS `opts.maxbytes || DEFAULT_SUB_SIZE`: both `undefined` (`none`) and `0`
are falsy, so both fall back to the default. -/
def subscribeMaxbytes (maxbytes : Option Nat) : Nat :=
  match maxbytes with
  | none => DEFAULT_SUB_SIZE
  | some m => if m = 0 then DEFAULT_SUB_SIZE else m

/-- The Subscribe frame written by `subscribe(from, opts)`, as the
`(flags, from, maxbytes)` triple handed to `subscribeRaw`. -/
def subscribeFrame (from_ : Int) (maxbytes : Option Nat) (oneshot : Bool) :
    Nat × Int × Nat :=
  (if oneshot then 1 else 0, from_, subscribeMaxbytes maxbytes)

/-- The Subscribe frame that `getVersion()` causes: `getVersion` calls
`getEvents(-1, -1, {maxbytes: 0})`, whose `getNext` issues
`subscribe(-1, {maxbytes: 0, oneshot: true})`. -/
def getVersionFrame : Nat × Int × Nat := subscribeFrame (-1) (some 0) true

/-- `getVersion()`'s result from the single one-shot response: `v_start - 1`. -/
def getVersionResult (d : SubCbData) : Int := d.v_start - 1

/-! ## Reconnection supervisor: queued-send lifecycle (`trySendRaw`) -/

/-- Remove the first occurrence (`indexOf` + `shift`/`splice(idx, 1)`). -/
def removeFirst : List Nat → Nat → List Nat
  | [], _ => []
  | x :: xs, y => if x = y then xs else x :: removeFirst xs y

/-- The supervisor's durable send queue plus the log of application-callback
invocations. -/
structure SupQueue where
  queue : List Nat
  appCalls : List (Nat × Outcome)
deriving DecidableEq

/-- The completion handler `trySendRaw` installs on the underlying
`client.sendRaw`: eat `ClosedBeforeConfirm` (leave the entry queued, don't
call the application); otherwise `assert(idx >= 0)`, remove the entry and
invoke the application callback with the outcome. -/
def trySendComplete (st : SupQueue) (entry : Nat) (outcome : Outcome) :
    Option SupQueue :=
  if outcome = Outcome.closedBeforeConfirm then some st
  else if entry ∈ st.queue then
    some { queue := removeFirst st.queue entry
         , appCalls := st.appCalls ++ [(entry, outcome)] }
  else none

/-! ## Reconnection supervisor: connection state machine (`reconnecter`) -/

/-- The supervisor's `state` variable. -/
inductive Phase where
  | waiting
  | connecting
  | connected
  | stopped
deriving DecidableEq

/-- Supervisor state relevant to connection lifecycle. `client` holds the
current connection's `source` when connected; `pendingConnect` tracks an
outstanding `connectRaw` whose callback has not fired yet. -/
structure RState where
  phase : Phase
  client : Option Nat
  timer : Bool
  pendingConnect : Bool
  apiSource : Option Nat
  callbackCalled : Bool
  wantSubFromV : Option Int
deriving DecidableEq

/-- Events driving the supervisor: the retry timer firing (`tryConnect`), the
`connectRaw` callback (`none` = connect failure, `some src` = a connection
whose Hello reported `src`), the application calling `close()`, and the
application calling `subscribe(from)`. (`sendRaw`/`getEventsRaw` calls never
touch the connection lifecycle and never call `tryConnect`.) -/
inductive REvent where
  | timerFire
  | connectResult (res : Option Nat)
  | closeCalled
  | subscribeCalled (v : Int)
deriving DecidableEq

/-- Result of one supervisor step: the new state, whether a new `connectRaw`
attempt was initiated, and whether an assertion fired (a crash). -/
structure RStep where
  st : RState
  initiated : Bool
  faulted : Bool
deriving DecidableEq

/-- One supervisor step (`tryConnect`, the `connectRaw` callback of lines
567–606, `close()`, `subscribe()`), translated branch by branch. -/
def rstep (s : RState) : REvent → RStep
  | .timerFire =>
    if ¬s.timer then ⟨s, false, false⟩  -- no timer pending: nothing fires
    else
      -- tryConnect: assert.strictEqual(state, 'waiting'); state = 'connecting'; connectRaw(...)
      if s.phase ≠ Phase.waiting then ⟨{ s with timer := false }, false, true ⟩
      else ⟨{ s with timer := false, phase := Phase.connecting, pendingConnect := true },
            true, false⟩
  | .closeCalled =>
    ⟨{ s with client := none, timer := false, phase := Phase.stopped }, false, false⟩
  | .connectResult res =>
    if ¬s.pendingConnect then ⟨s, false, false⟩  -- no outstanding attempt
    else
      let s0 := { s with pendingConnect := false }
      if s0.phase = Phase.stopped then ⟨s0, false, false⟩  -- close the new client, return
      else match res with
        | none =>
          -- console.warn; state = 'waiting'; timer = setTimeout(tryConnect, ...)
          ⟨{ s0 with phase := Phase.waiting, timer := true }, false, false⟩
        | some src =>
          if s0.client ≠ none then ⟨s0, false, true⟩  -- assert(client == null)
          else
            let s1 := { s0 with phase := Phase.connected, client := some src }
            if s1.apiSource ≠ none ∧ s1.apiSource ≠ some src then
              -- identity mismatch: state = 'stopped'; client.close(); client = null;
              -- then sub() still runs: assert(client) fires if a subscription is wanted
              ⟨{ s1 with phase := Phase.stopped, client := none }, false,
                s1.wantSubFromV ≠ none ∨ ¬s1.callbackCalled⟩
            else
              -- sub(); replay queues; first-connect bookkeeping
              if ¬s1.callbackCalled then
                ⟨{ s1 with apiSource := some src, callbackCalled := true }, false, false⟩
              else ⟨s1, false, false⟩
  | .subscribeCalled v =>
    if s.wantSubFromV ≠ none then ⟨s, false, true⟩  -- assert(wantSubFromV === null)
    else ⟨{ s with wantSubFromV := some v }, false, false⟩

/-- Supervisor state right after `reconnecter(...)` was called: the constructor
immediately runs `tryConnect` from the initial `waiting` state. -/
def initialR : RState :=
  { phase := Phase.connecting, client := none, timer := false, pendingConnect := true
  , apiSource := none, callbackCalled := false, wantSubFromV := none }

/-- Supervisor states reachable from construction through non-crashing steps. -/
inductive ReachableR : RState → Prop where
  | init : ReachableR initialR
  | step {s : RState} (e : REvent) : ReachableR s → (rstep s e).faulted = false →
      ReachableR (rstep s e).st

/-! # Theorems -/

/-! ## C1: `getEvents(from, to)` end-of-range trimming -/

/-- A batch-1 event at version `i` with empty payload, for concrete runs. -/
def evC1 (i : Int) : Event :=
  { version := i, crc32 := 0, batch_size := 1, flags := 0, data := [] }

/-- A one-shot response covering versions 0–4 (`v_end = 5`), not `current`. -/
def respC1 : SubCbData :=
  { v_start := 0, v_end := 5, size := 20, oneshot := true, complete := true
  , current := false, events := [evC1 0, evC1 1, evC1 2, evC1 3, evC1 4] }

/-- C1: the claim fails on the code — the trim loop's comparison is reversed
(`events[last].version < to` instead of `> to`). Evaluating `getEventsRaw` at
concrete inputs: for `getEvents(0, 3)` against a single response with events at
versions 0–4, the code returns all five events — including versions 3 and 4,
which are `≥ to` and which the claim says are trimmed — and leaves
`v_end = 5`; and for `getEvents(0, 5)` against the same response (stopping
exactly at the boundary `to = v_end`), the loop pops every event and returns an
empty sequence with `v_end = 0`, contradicting the code's own
"gets ops in the range [from, to]" contract. -/
theorem c1_trim_comparison_reversed :
    (∃ d, getEventsRawModel 0 3 [respC1] = some d ∧
      d.events.map Event.version = [0, 1, 2, 3, 4] ∧ d.v_end = 5 ∧
      ∃ e ∈ d.events, 3 ≤ e.version) ∧
    (∃ d, getEventsRawModel 0 5 [respC1] = some d ∧
      d.events = [] ∧ d.v_end = 0) := by
  constructor
  · exact ⟨_, rfl, by decide, by decide, evC1 3, by decide, by decide⟩
  · exact ⟨_, rfl, by decide, by decide⟩

/-! ## C4: `getVersion` / subscribe `maxbytes` defaulting -/

/-- C4: the claim fails on the code. `subscribe` computes
`opts.maxbytes || DEFAULT_SUB_SIZE`, and `0` is falsy in JS, so the one-shot
subscribe issued by `getVersion()` (`getEvents(-1, -1, {maxbytes: 0})`) writes
`maxbytes = 1048576` (the 1 MiB default) into the frame, not `0`; the default
is applied not only when `maxbytes` is unset but also when it is set to `0`.
The `v_start - 1` half of the claim does hold. -/
theorem c4_maxbytes_zero_is_falsy :
    getVersionFrame = (1, -1, 1048576) ∧ (1048576 : Nat) ≠ 0 ∧
    subscribeMaxbytes (some 0) = DEFAULT_SUB_SIZE ∧
    subscribeMaxbytes none = DEFAULT_SUB_SIZE ∧
    subscribeMaxbytes (some 64) = 64 ∧
    getVersionResult { v_start := 5, v_end := 5, size := 0, oneshot := true
                     , complete := true, current := true, events := [] } = 4 := by
  exact ⟨by decide, by decide, by decide, by decide, by decide, by decide⟩

/-! ## C7: supervisor queued-send lifecycle -/

/-- C7: on a `ClosedBeforeConfirm` completion from the underlying dispatcher,
the entry stays in the supervisor's queue and the application callback is not
invoked; on any other completion of an entry that is in the queue, the first
occurrence of the entry is removed and the application callback is invoked
exactly once with that outcome. -/
theorem c7_supervisor_send_completion (st : SupQueue) (entry : Nat) (outcome : Outcome) :
    (outcome = Outcome.closedBeforeConfirm →
      trySendComplete st entry outcome = some st) ∧
    (outcome ≠ Outcome.closedBeforeConfirm → entry ∈ st.queue →
      trySendComplete st entry outcome =
        some { queue := removeFirst st.queue entry
             , appCalls := st.appCalls ++ [(entry, outcome)] }) := by
  constructor
  · intro h
    simp [trySendComplete, h]
  · intro h hm
    simp [trySendComplete, h, hm]

/-- Witness for C7 at concrete inputs: a version-conflict completion of the
only queued entry removes it and invokes the application callback; a
closed-before-confirm completion leaves the queue untouched. -/
theorem c7_supervisor_send_completion_witness :
    trySendComplete ⟨[7], []⟩ 7 (Outcome.confirmed 3) =
      some ⟨[], [(7, Outcome.confirmed 3)]⟩ ∧
    trySendComplete ⟨[7], []⟩ 7 Outcome.closedBeforeConfirm = some ⟨[7], []⟩ := by
  constructor
  · exact (c7_supervisor_send_completion ⟨[7], []⟩ 7 (Outcome.confirmed 3)).2
      (by decide) (by decide)
  · exact (c7_supervisor_send_completion ⟨[7], []⟩ 7 Outcome.closedBeforeConfirm).1 rfl

/-! ## C9: 64-bit fields truncate to their low 32 bits -/

/-- C9: every u64 field decode (`readCursor.readUInt64`, used for the
EventConfirm version and the Subscribe response's `v_start` and `size`) yields
the field's value modulo `2^32`, with the high word's 4 bytes read and
discarded. The second conjunct checks this in place for an EventConfirm frame:
the whole frame consumes 10 bytes (type, proto_v, and all 8 version bytes) and
the decoded version is the u64 read of the 8-byte field. -/
theorem c9_readUInt64_low32
    (b0 b1 b2 b3 b4 b5 b6 b7 : Nat) (post : Bytes)
    (h0 : b0 < 256) (h1 : b1 < 256) (h2 : b2 < 256) (h3 : b3 < 256) :
    readUInt64at (b0 :: b1 :: b2 :: b3 :: b4 :: b5 :: b6 :: b7 :: post) 0 =
      (b0 + 256 * b1 + 65536 * b2 + 16777216 * b3 + 4294967296 * b4
        + 1099511627776 * b5 + 281474976710656 * b6 + 72057594037927936 * b7)
        % 4294967296 ∧
    (∀ (esv : Int) (proto : Nat),
      decodeOne esv (2 :: proto :: b0 :: b1 :: b2 :: b3 :: b4 :: b5 :: b6 :: b7 :: post) =
        .ok (.eventConfirm
          (readUInt64at (b0 :: b1 :: b2 :: b3 :: b4 :: b5 :: b6 :: b7 :: post) 0), 10)) := by
  constructor
  · simp only [readUInt64at, readUInt32at, byteAt, List.getD_cons_zero, List.getD_cons_succ]
    omega
  · intro esv proto
    rw [decodeOne]
    rw [if_neg (by simp only [List.length_cons]; omega)]
    rw [if_neg (by simp [byteAt])]
    rw [if_neg (by simp [byteAt])]
    rw [if_pos (by simp [byteAt])]
    rw [if_neg (by simp only [List.length_cons]; omega)]
    simp only [readUInt64at, readUInt32at, byteAt, List.getD_cons_zero, List.getD_cons_succ]

/-- Witness for C9: a concrete 8-byte field whose high word is nonzero decodes
to the low 32 bits, and a concrete EventConfirm frame consumes 10 bytes. -/
theorem c9_readUInt64_low32_witness :
    readUInt64at [1, 0, 0, 0, 255, 0, 0, 0] 0 =
      (1 + 256 * 0 + 65536 * 0 + 16777216 * 0 + 4294967296 * 255
        + 1099511627776 * 0 + 281474976710656 * 0 + 72057594037927936 * 0)
        % 4294967296 ∧
    decodeOne 0 (2 :: 0 :: 1 :: 0 :: 0 :: 0 :: 255 :: 0 :: 0 :: 0 :: []) =
      .ok (.eventConfirm (readUInt64at [1, 0, 0, 0, 255, 0, 0, 0] 0), 10) := by
  have h := c9_readUInt64_low32 1 0 0 0 255 0 0 0 []
    (by decide) (by decide) (by decide) (by decide)
  exact ⟨h.1, h.2 0 0⟩

/-! ## C5: partial-read handling -/

theorem byteAt_append {buf : Bytes} {i : Nat} (e : Bytes) (h : i < buf.length) :
    byteAt (buf ++ e) i = byteAt buf i :=
  List.getD_append _ _ _ _ h

theorem readUInt16at_append {buf : Bytes} {i : Nat} (e : Bytes) (h : i + 2 ≤ buf.length) :
    readUInt16at (buf ++ e) i = readUInt16at buf i := by
  unfold readUInt16at
  rw [byteAt_append e (by omega), byteAt_append e (by omega)]

theorem readUInt32at_append {buf : Bytes} {i : Nat} (e : Bytes) (h : i + 4 ≤ buf.length) :
    readUInt32at (buf ++ e) i = readUInt32at buf i := by
  unfold readUInt32at
  rw [byteAt_append e (by omega), byteAt_append e (by omega),
      byteAt_append e (by omega), byteAt_append e (by omega)]

theorem readUInt64at_append {buf : Bytes} {i : Nat} (e : Bytes) (h : i + 4 ≤ buf.length) :
    readUInt64at (buf ++ e) i = readUInt64at buf i :=
  readUInt32at_append e h

theorem drop_take_append {buf : Bytes} {pos k : Nat} (e : Bytes)
    (h : pos + k ≤ buf.length) :
    ((buf ++ e).drop pos).take k = (buf.drop pos).take k := by
  rw [List.drop_append_of_le_length (by omega), List.take_append_of_le_length]
  simp only [List.length_drop]
  omega

/-- A successful `readEvent` parse is stable under appending further bytes:
the same record is returned from the same position. -/
theorem readEvent_append {buf : Bytes} {pos : Nat} {v : Int} {r : Event × Nat}
    (e : Bytes) (h : readEvent buf pos v = .ok r) :
    readEvent (buf ++ e) pos v = .ok r := by
  unfold readEvent at h ⊢
  split at h
  · simp at h
  · rename_i h12
    split at h
    · simp at h
    · rename_i hproto
      split at h
      · simp at h
      · rename_i hsize
        have hlen : pos + 12 ≤ buf.length := by omega
        have hsz : pos + 12 + readUInt32at buf pos ≤ buf.length := by omega
        rw [if_neg (by simp only [List.length_append]; omega)]
        rw [readUInt32at_append e (by omega)]
        rw [if_neg (by rw [byteAt_append e (by omega)]; exact hproto)]
        rw [if_neg (by simp only [List.length_append]; omega)]
        rw [readUInt32at_append e (by omega), readUInt16at_append e (by omega),
            byteAt_append e (show pos + 11 < buf.length by omega),
            drop_take_append e (by omega)]
        exact h

/-- A successful record-loop parse is stable under appending further bytes. -/
theorem readRecords_append {buf : Bytes} {start size : Nat} {es : List Event}
    {v' : Int} (e : Bytes) :
    ∀ {v : Int} {pos p : Nat},
    readRecords buf start pos size v = .ok (es, p, v') →
    readRecords (buf ++ e) start pos size v = .ok (es, p, v') := by
  induction es with
  | nil =>
    intro v pos p h
    unfold readRecords at h ⊢
    split at h
    · rename_i hstop
      rw [if_pos hstop]
      exact h
    · split at h
      · split at h
        · simp at h
        · simp at h
        · simp at h
      · simp at h
      · simp at h
  | cons ev es ih =>
    intro v pos p h
    unfold readRecords at h
    split at h
    · simp at h
    · rename_i hstop
      split at h
      · rename_i e' pos' hre
        split at h
        · rename_i es0 p0 v0 hrec
          simp only [ReadRes.ok.injEq, Prod.mk.injEq, List.cons.injEq] at h
          obtain ⟨⟨he, hes⟩, hp, hv⟩ := h
          subst hes hp hv
          conv_lhs => rw [readRecords]
          rw [if_neg hstop]
          split
          · rename_i e2 pos2 hre2
            have h2 : ReadRes.ok (e2, pos2) = ReadRes.ok (e', pos') := by
              rw [← hre2, readEvent_append e hre]
            simp only [ReadRes.ok.injEq, Prod.mk.injEq] at h2
            obtain ⟨h2e, h2p⟩ := h2
            subst h2e h2p
            rw [ih hrec, he]
          · rename_i hre2
            rw [readEvent_append e hre] at hre2
            simp at hre2
          · rename_i hre2
            rw [readEvent_append e hre] at hre2
            simp at hre2
        · simp at h
        · simp at h
      · simp at h
      · simp at h

/-- A successful frame decode is stable under appending further bytes: the
same frame is returned and the same byte count consumed. -/
theorem decodeOne_append {esv : Int} {buf : Bytes} {m : ServerMsg} {n : Nat}
    (e : Bytes) (h : decodeOne esv buf = .ok (m, n)) :
    decodeOne esv (buf ++ e) = .ok (m, n) := by
  have hb := decodeOne_bounds h
  unfold decodeOne at h ⊢
  rw [if_neg (by simp only [List.length_append]; omega)]
  split at h
  · simp at h
  · split at h
    · -- Hello
      rename_i hm0
      split at h
      · simp at h
      · rw [if_pos (by rw [byteAt_append e (by omega)]; exact hm0)]
        rw [if_neg (by simp only [List.length_append]; omega)]
        rw [byteAt_append e (show 1 < buf.length by omega),
            drop_take_append e (show 2 + 8 ≤ buf.length by omega)]
        exact h
    · rename_i hm0
      split at h
      · -- Event
        rename_i hm1
        rw [if_neg (by rw [byteAt_append e (by omega)]; exact hm0)]
        rw [if_pos (by rw [byteAt_append e (by omega)]; exact hm1)]
        split at h
        · simp at h
        · simp at h
        · rename_i ev n' hre
          rw [readEvent_append e hre]
          exact h
      · rename_i hm1
        split at h
        · -- EventConfirm
          rename_i hm2
          split at h
          · simp at h
          · rw [if_neg (by rw [byteAt_append e (by omega)]; exact hm0)]
            rw [if_neg (by rw [byteAt_append e (by omega)]; exact hm1)]
            rw [if_pos (by rw [byteAt_append e (by omega)]; exact hm2)]
            rw [if_neg (by simp only [List.length_append]; omega)]
            rw [readUInt64at_append e (by omega)]
            exact h
        · rename_i hm2
          split at h
          · -- Subscribe
            rename_i hm3
            split at h
            · simp at h
            · rename_i h18
              split at h
              · simp at h
              · rename_i hsz
                rw [if_neg (by rw [byteAt_append e (by omega)]; exact hm0)]
                rw [if_neg (by rw [byteAt_append e (by omega)]; exact hm1)]
                rw [if_neg (by rw [byteAt_append e (by omega)]; exact hm2)]
                rw [if_pos (by rw [byteAt_append e (by omega)]; exact hm3)]
                rw [if_neg (by simp only [List.length_append]; omega)]
                rw [readUInt64at_append e (by omega), readUInt64at_append e (by omega)]
                rw [if_neg (by simp only [List.length_append]; omega)]
                split at h
                · rename_i events n' vn hrec
                  rw [readRecords_append e hrec,
                      byteAt_append e (show 18 < buf.length by omega)]
                  exact h
                · simp at h
          · rename_i hm3
            split at h
            · -- SubscribeEnd
              rename_i hm4
              split at h
              · simp at h
              · rw [if_neg (by rw [byteAt_append e (by omega)]; exact hm0)]
                rw [if_neg (by rw [byteAt_append e (by omega)]; exact hm1)]
                rw [if_neg (by rw [byteAt_append e (by omega)]; exact hm2)]
                rw [if_neg (by rw [byteAt_append e (by omega)]; exact hm3)]
                rw [if_pos (by rw [byteAt_append e (by omega)]; exact hm4)]
                rw [if_neg (by simp only [List.length_append]; omega)]
                exact h
            · simp at h

/-- Draining a buffer that ends in a clean "awaiting more data" state and then
receiving more bytes is the same as having had all the bytes at once: the
already-dispatched frames stay dispatched and the leftover bytes are simply
extended. (`N` is a fuel bound for the induction.) -/
theorem drain_append_aux :
    ∀ (N : Nat) (s : DState) (buf E : Bytes) (s1 : DState) (r1 : Bytes),
    buf.length ≤ N → drain s buf = some (s1, r1) →
    drain s (buf ++ E) = drain s1 (r1 ++ E) := by
  intro N
  induction N with
  | zero =>
    intro s buf E s1 r1 hlen h
    have hbuf : buf = [] := List.length_eq_zero.mp (by omega)
    subst hbuf
    unfold drain at h
    split at h
    · simp only [Option.some.injEq, Prod.mk.injEq] at h
      obtain ⟨hs, hr⟩ := h
      subst hs hr
      rfl
    · simp at h
    · rename_i m n hdec
      simp [decodeOne] at hdec
  | succ N ih =>
    intro s buf E s1 r1 hlen h
    unfold drain at h
    split at h
    · rename_i hdec
      simp only [Option.some.injEq, Prod.mk.injEq] at h
      obtain ⟨hs, hr⟩ := h
      subst hs hr
      rfl
    · simp at h
    · rename_i m n hdec
      split at h
      · simp at h
      · rename_i s2 happ
        have hb := decodeOne_bounds hdec
        conv_lhs => rw [drain]
        split
        · rename_i hdec2
          rw [decodeOne_append E hdec] at hdec2
          simp at hdec2
        · rename_i hdec2
          rw [decodeOne_append E hdec] at hdec2
          simp at hdec2
        · rename_i m2 n2 hdec2
          rw [decodeOne_append E hdec] at hdec2
          simp only [ReadRes.ok.injEq, Prod.mk.injEq] at hdec2
          obtain ⟨hm2, hn2⟩ := hdec2
          subst hm2 hn2
          rw [happ]
          rw [List.drop_append_of_le_length (by omega)]
          exact ih s2 (buf.drop n) E s1 r1 (by simp only [List.length_drop]; omega) h

/-- C5: incremental decoding is insensitive to delivery boundaries. (1)/(2):
an event record is decodable only with all 12 header bytes and, past the
header, all `size` payload bytes — otherwise `readEvent` reports
`insufficient`; (3) a decode attempt that reports `insufficient` leaves the
dispatcher state and the accumulation buffer (hence its consumed position)
exactly unchanged; (4) consequently, processing chunk `B1` and then chunk `B2`
dispatches the same frames and keeps the same leftover bytes as processing the
contiguous `B1 ++ B2` (stated for any starting buffer `buf`; runs that hit a
fatal protocol violation are outside the equivalence, as the source throws
there). -/
theorem c5_partial_delivery_equivalence :
    (∀ (buf : Bytes) (pos : Nat) (v : Int),
        buf.length - pos < 12 → readEvent buf pos v = .insufficient) ∧
    (∀ (buf : Bytes) (pos : Nat) (v : Int),
        ¬ buf.length - pos < 12 → byteAt buf (pos + 10) = 0 →
        buf.length - (pos + 12) < readUInt32at buf pos →
        readEvent buf pos v = .insufficient) ∧
    (∀ (s : DState) (buf : Bytes),
        decodeOne s.eventstream_version buf = .insufficient →
        drain s buf = some (s, buf)) ∧
    (∀ (s : DState) (buf B1 B2 : Bytes) (s1 : DState) (r1 : Bytes),
        processData s buf B1 = some (s1, r1) →
        processData s1 r1 B2 = processData s buf (B1 ++ B2)) := by
  refine ⟨?_, ?_, ?_, ?_⟩
  · intro buf pos v h
    unfold readEvent
    rw [if_pos h]
  · intro buf pos v h1 h2 h3
    unfold readEvent
    rw [if_neg h1, if_neg (by simp [h2]), if_pos h3]
  · intro s buf h
    conv_lhs => rw [drain]
    split
    · rfl
    · rename_i hdec
      rw [h] at hdec
      simp at hdec
    · rename_i m n hdec
      rw [h] at hdec
      simp at hdec
  · intro s buf B1 B2 s1 r1 h
    unfold processData at h ⊢
    rw [← List.append_assoc]
    exact (drain_append_aux (buf ++ B1).length s (buf ++ B1) B2 s1 r1 le_rfl h).symm

/-- Witness for C5 at concrete inputs: a 1-byte buffer is insufficient for a
record header; a 12-byte header declaring 5 payload bytes with none buffered is
insufficient; a Hello frame cut after 4 bytes leaves the dispatcher and buffer
unchanged; and delivering the remaining 6 bytes later processes the same as one
contiguous delivery. -/
theorem c5_partial_delivery_equivalence_witness :
    readEvent [0] 0 0 = .insufficient ∧
    readEvent [5, 0, 0, 0, 0, 0, 0, 0, 1, 0, 0, 0] 0 0 = .insufficient ∧
    drain initState [0, 0, 97, 98] = some (initState, [0, 0, 97, 98]) ∧
    processData initState [0, 0, 97, 98] [99, 100, 101, 102, 103, 104] =
      processData initState [] ([0, 0, 97, 98] ++ [99, 100, 101, 102, 103, 104]) := by
  have h3 : drain initState [0, 0, 97, 98] = some (initState, [0, 0, 97, 98]) :=
    c5_partial_delivery_equivalence.2.2.1 initState [0, 0, 97, 98] (by decide)
  refine ⟨c5_partial_delivery_equivalence.1 [0] 0 0 (by decide),
          c5_partial_delivery_equivalence.2.1 [5, 0, 0, 0, 0, 0, 0, 0, 1, 0, 0, 0] 0 0
            (by decide) (by decide) (by decide),
          h3, ?_⟩
  exact c5_partial_delivery_equivalence.2.2.2 initState [] [0, 0, 97, 98]
    [99, 100, 101, 102, 103, 104] initState [0, 0, 97, 98] h3

/-! ## C2: `streamVersion` after events and subscribe responses -/

/-- The record loop's running version ends at the start version plus the sum of
the decoded records' `batch_size`s. -/
theorem readRecords_v_next {buf : Bytes} {start size : Nat} {es : List Event}
    {v' : Int} : ∀ {v : Int} {pos p : Nat},
    readRecords buf start pos size v = .ok (es, p, v') →
    v' = v + (es.map (fun ev => (ev.batch_size : Int))).sum := by
  induction es with
  | nil =>
    intro v pos p h
    unfold readRecords at h
    split at h
    · simp only [ReadRes.ok.injEq, Prod.mk.injEq] at h
      simp [← h.2.2]
    · split at h
      · split at h
        · simp at h
        · simp at h
        · simp at h
      · simp at h
      · simp at h
  | cons e es ih =>
    intro v pos p h
    unfold readRecords at h
    split at h
    · simp at h
    · split at h
      · rename_i e' pos' hre
        split at h
        · rename_i es0 p0 v0 hrec
          simp only [ReadRes.ok.injEq, Prod.mk.injEq, List.cons.injEq] at h
          obtain ⟨⟨he, hes⟩, hp, hv⟩ := h
          subst hes hp hv
          rw [List.map_cons, List.sum_cons, ih hrec, he]
          ring
        · simp at h
        · simp at h
      · simp at h
      · simp at h

/-- C2 (amended): processing one Event frame adds exactly its `batch_size` to
`streamVersion`; processing one non-one-shot, non-complete Subscribe response
*sets* `streamVersion` to the response's end version `v_next`, which the wire
decoder guarantees equals `v_start` plus the sum of the records' `batch_size`s
— so the new `streamVersion` equals the old one plus the batch sum exactly
when `v_start` equals the prior `streamVersion`. -/
theorem c2_stream_version_amended :
    (∀ (s : DState) (e : Event) (s' : DState),
        applyMsg s (.event e) = some s' →
        s'.eventstream_version = s.eventstream_version + (e.batch_size : Int)) ∧
    (∀ (buf : Bytes) (start size : Nat) (es : List Event) (v v' : Int) (pos p : Nat),
        readRecords buf start pos size v = .ok (es, p, v') →
        v' = v + (es.map (fun ev => (ev.batch_size : Int))).sum) ∧
    (∀ (s : DState) (v_start size flags : Nat) (es : List Event) (v_next : Int)
        (s' : DState),
        flags &&& 1 = 0 → flags &&& 2 = 0 →
        applyMsg s (.subscribeResp v_start size flags es v_next) = some s' →
        s'.eventstream_version = v_next ∧
        (v_next = (v_start : Int) + (es.map (fun ev => (ev.batch_size : Int))).sum →
          (s'.eventstream_version =
              s.eventstream_version + (es.map (fun ev => (ev.batch_size : Int))).sum ↔
            (v_start : Int) = s.eventstream_version))) := by
  refine ⟨?_, ?_, ?_⟩
  · intro s e s' h
    simp only [applyMsg, Option.some.injEq] at h
    subst h
    rfl
  · intro buf start size es v v' pos p h
    exact readRecords_v_next h
  · intro s v_start size flags es v_next s' h1 h2 happ
    simp only [applyMsg, h1, h2] at happ
    simp only [ne_eq, not_true_eq_false, if_false, reduceIte] at happ
    have hmain : s'.eventstream_version = v_next := by
      split at happ
      · simp only [Option.some.injEq] at happ
        subst happ
        rfl
      · split at happ
        · simp at happ
        · rename_i c hc
          simp only [Option.some.injEq] at happ
          subst happ
          rfl
    refine ⟨hmain, fun hsum => ?_⟩
    rw [hmain, hsum]
    constructor
    · intro h
      omega
    · intro h
      omega

/-- Counterexample for C2 as stated: a non-one-shot Subscribe response whose
`v_start` (5) differs from the prior `streamVersion` (-1) leaves
`streamVersion = 6`, not `-1 + 1 = 0`. -/
theorem c2_counterexample :
    ∃ s', applyMsg { initState with subCb := some 0 }
        (.subscribeResp 5 0 0 [evC1 5] 6) = some s' ∧
      s'.eventstream_version = 6 ∧
      ({ initState with subCb := some 0 } : DState).eventstream_version +
        (([evC1 5]).map (fun ev => (ev.batch_size : Int))).sum = 0 ∧
      (6 : Int) ≠ 0 :=
  ⟨_, rfl, by decide, by decide, by decide⟩

/-- Witness for C2's amended theorem at concrete inputs. -/
theorem c2_stream_version_amended_witness :
    (∃ s', applyMsg initState (.event (evC1 0)) = some s' ∧
      s'.eventstream_version = initState.eventstream_version + ((evC1 0).batch_size : Int)) ∧
    (∃ s', applyMsg { initState with subCb := some 0 }
        (.subscribeResp 5 0 0 [evC1 5] 6) = some s' ∧
      s'.eventstream_version = 6) := by
  constructor
  · exact ⟨_, rfl, c2_stream_version_amended.1 initState (evC1 0) _ rfl⟩
  · exact ⟨_, rfl, (c2_stream_version_amended.2.2 { initState with subCb := some 0 }
      5 0 0 [evC1 5] 6 _ (by decide) (by decide) rfl).1⟩

/-! ## C3 / C10: FIFO confirmations and the empty-queue fault -/

/-- The send-callback ids pushed by a trace, in call order. -/
def sendIds : List DOp → List Nat
  | [] => []
  | DOp.sendRaw c :: ops => c :: sendIds ops
  | _ :: ops => sendIds ops

/-- The EventConfirm version fields received by a trace, in arrival order. -/
def confirmVersions : List DOp → List Nat
  | [] => []
  | DOp.recv (ServerMsg.eventConfirm v) :: ops => v :: confirmVersions ops
  | _ :: ops => confirmVersions ops

/-- How one EventConfirm version field completes a send callback. -/
def confirmOutcome (v : Nat) : Outcome :=
  if v = VERSION_CONFLICT then Outcome.versionConflict else Outcome.confirmed v

/-- Trace elements considered by C3/C10: `sendRaw` calls and EventConfirm
frames. -/
def sendOrConfirm : DOp → Bool
  | DOp.sendRaw _ => true
  | DOp.recv (ServerMsg.eventConfirm _) => true
  | _ => false

theorem drun_send_confirm_aux {ops : List DOp} :
    ∀ {s s' : DState}, (∀ op ∈ ops, sendOrConfirm op = true) →
    drun s ops = some s' →
    s'.delivered = s.delivered ++
      List.zip (s.sendcbs ++ sendIds ops) ((confirmVersions ops).map confirmOutcome) ∧
    s'.sendcbs = (s.sendcbs ++ sendIds ops).drop (confirmVersions ops).length := by
  induction ops with
  | nil =>
    intro s s' hsh h
    simp only [drun, Option.some.injEq] at h
    subst h
    simp [sendIds, confirmVersions]
  | cons op ops ih =>
    intro s s' hsh h
    have hop := hsh op (List.mem_cons_self _ _)
    have hrest : ∀ o ∈ ops, sendOrConfirm o = true :=
      fun o ho => hsh o (List.mem_cons_of_mem _ ho)
    match op with
    | DOp.sendRaw c =>
      simp only [drun, dstep] at h
      have hres := ih hrest h
      simp only [sendIds, confirmVersions]
      constructor
      · rw [hres.1]
        simp
      · rw [hres.2]
        simp
    | DOp.recv (ServerMsg.eventConfirm v) =>
      simp only [drun, dstep, applyMsg] at h
      cases hq : s.sendcbs with
      | nil =>
        rw [hq] at h
        simp at h
      | cons c q' =>
        rw [hq] at h
        simp only [] at h
        have hres := ih hrest h
        simp only [sendIds, confirmVersions, hq]
        constructor
        · rw [hres.1]
          simp [confirmOutcome]
        · rw [hres.2]
          simp
    | DOp.recv (ServerMsg.hello p srcb) => simp [sendOrConfirm] at hop
    | DOp.recv (ServerMsg.event e) => simp [sendOrConfirm] at hop
    | DOp.recv (ServerMsg.subscribeResp a b c d e) => simp [sendOrConfirm] at hop
    | DOp.recv ServerMsg.subscribeEnd => simp [sendOrConfirm] at hop
    | DOp.closeEvt => simp [sendOrConfirm] at hop

/-- C3: over any trace of `sendRaw` calls and EventConfirm frames on one
connection that completes without fault, the completed callbacks are exactly
the sent ones paired FIFO with the confirmations — the i-th confirmation
completes the i-th send, each exactly once — the outcome of each being a
version conflict exactly when the decoded version is `0xFFFFFFFF` and the
confirmed version otherwise; the still-pending queue is the unconfirmed
suffix in order. -/
theorem c3_confirmations_fifo (ops : List DOp) (s' : DState)
    (hshape : ∀ op ∈ ops, sendOrConfirm op = true)
    (h : drun initState ops = some s') :
    s'.delivered = List.zip (sendIds ops) ((confirmVersions ops).map confirmOutcome) ∧
    (∀ v, confirmOutcome v =
      if v = VERSION_CONFLICT then Outcome.versionConflict else Outcome.confirmed v) ∧
    s'.sendcbs = (sendIds ops).drop (confirmVersions ops).length := by
  have hres := drun_send_confirm_aux hshape h
  refine ⟨?_, fun v => rfl, ?_⟩
  · simpa [initState] using hres.1
  · simpa [initState] using hres.2

/-- Trace for the C3 witness: two sends, then a normal confirmation and a
version-conflict confirmation. -/
def c3ops : List DOp :=
  [DOp.sendRaw 1, DOp.sendRaw 2,
   DOp.recv (ServerMsg.eventConfirm 7), DOp.recv (ServerMsg.eventConfirm 0xffffffff)]

/-- Witness for C3 at a concrete trace. -/
theorem c3_confirmations_fifo_witness :
    ∃ s', drun initState c3ops = some s' ∧
      s'.delivered = List.zip (sendIds c3ops) ((confirmVersions c3ops).map confirmOutcome) ∧
      s'.sendcbs = (sendIds c3ops).drop (confirmVersions c3ops).length ∧
      s'.delivered = [(1, Outcome.confirmed 7), (2, Outcome.versionConflict)] := by
  refine ⟨_, rfl, ?_⟩
  have h := c3_confirmations_fifo c3ops _ (by decide) rfl
  exact ⟨h.1, h.2.2, by decide⟩

theorem drun_confirm_fault_iff {ops : List DOp} :
    ∀ {s : DState}, (∀ op ∈ ops, sendOrConfirm op = true) →
    (drun s ops = none ↔
      ∃ n, s.sendcbs.length + (sendIds (List.take n ops)).length <
        (confirmVersions (List.take n ops)).length) := by
  induction ops with
  | nil =>
    intro s hsh
    constructor
    · intro h
      simp [drun] at h
    · rintro ⟨n, hn⟩
      simp [sendIds, confirmVersions, List.take_nil] at hn
  | cons op ops ih =>
    intro s hsh
    have hop := hsh op (List.mem_cons_self _ _)
    have hrest : ∀ o ∈ ops, sendOrConfirm o = true :=
      fun o ho => hsh o (List.mem_cons_of_mem _ ho)
    match op with
    | DOp.sendRaw c =>
      simp only [drun, dstep]
      rw [ih hrest]
      constructor
      · rintro ⟨m, hm⟩
        refine ⟨m + 1, ?_⟩
        simp only [List.take_succ_cons, sendIds, confirmVersions, List.length_cons,
          List.length_append, List.length_singleton, List.length_nil] at hm ⊢
        omega
      · rintro ⟨n, hn⟩
        match n with
        | 0 =>
          simp only [List.take_zero, sendIds, confirmVersions, List.length_nil] at hn
          omega
        | m + 1 =>
          refine ⟨m, ?_⟩
          simp only [List.take_succ_cons, sendIds, confirmVersions, List.length_cons,
            List.length_append, List.length_singleton, List.length_nil] at hn ⊢
          omega
    | DOp.recv (ServerMsg.eventConfirm v) =>
      cases hq : s.sendcbs with
      | nil =>
        simp only [drun, dstep, applyMsg, hq]
        constructor
        · intro _
          refine ⟨1, ?_⟩
          simp [sendIds, confirmVersions, hq]
        · intro _
          trivial
      | cons c q' =>
        simp only [drun, dstep, applyMsg, hq]
        rw [ih hrest]
        constructor
        · rintro ⟨m, hm⟩
          refine ⟨m + 1, ?_⟩
          simp only [List.take_succ_cons, sendIds, confirmVersions, List.length_cons, hq] at hm ⊢
          omega
        · rintro ⟨n, hn⟩
          match n with
          | 0 =>
            simp only [List.take_zero, sendIds, confirmVersions, List.length_nil] at hn
            omega
          | m + 1 =>
            refine ⟨m, ?_⟩
            simp only [List.take_succ_cons, sendIds, confirmVersions, List.length_cons, hq] at hn ⊢
            omega
    | DOp.recv (ServerMsg.hello p srcb) => simp [sendOrConfirm] at hop
    | DOp.recv (ServerMsg.event e) => simp [sendOrConfirm] at hop
    | DOp.recv (ServerMsg.subscribeResp a b c d e) => simp [sendOrConfirm] at hop
    | DOp.recv ServerMsg.subscribeEnd => simp [sendOrConfirm] at hop
    | DOp.closeEvt => simp [sendOrConfirm] at hop

/-- C10: processing an EventConfirm with an empty pending-send queue is the
dispatcher's only fault in a send/confirm trace — `sendcbs.shift()!` yields
`undefined` and calling it throws. A single EventConfirm dispatch faults
exactly when the queue is empty, and a whole send/confirm trace faults exactly
when some prefix contains more confirmations than the initially pending plus
the sent callbacks — i.e. the handler is total precisely when every
EventConfirm is matched by a prior unconfirmed send. -/
theorem c10_confirm_requires_pending :
    (∀ (s : DState) (v : Nat),
        applyMsg s (.eventConfirm v) = none ↔ s.sendcbs = []) ∧
    (∀ (ops : List DOp) (s : DState), (∀ op ∈ ops, sendOrConfirm op = true) →
        (drun s ops = none ↔
          ∃ n, s.sendcbs.length + (sendIds (List.take n ops)).length <
            (confirmVersions (List.take n ops)).length)) := by
  constructor
  · intro s v
    cases hq : s.sendcbs with
    | nil => simp [applyMsg, hq]
    | cons c q' => simp [applyMsg, hq]
  · intro ops s hsh
    exact drun_confirm_fault_iff hsh

/-- Witness for C10: an EventConfirm arriving with nothing pending faults, both
as a single dispatch and as a trace. -/
theorem c10_confirm_requires_pending_witness :
    applyMsg initState (.eventConfirm 5) = none ∧
    drun initState [DOp.recv (.eventConfirm 5)] = none := by
  constructor
  · exact (c10_confirm_requires_pending.1 initState 5).mpr rfl
  · exact (c10_confirm_requires_pending.2 [DOp.recv (.eventConfirm 5)] initState
      (by decide)).mpr ⟨1, by decide⟩

/-! ## C6: connection close -/

/-- C6: closing the connection — however many times the socket's
`close`/`end`/`error` events fire in a row — notifies the owner at most once
(exactly once if still connected), completes every send callback that was
pending at that moment exactly once with `ClosedBeforeConfirm`, never touches
callbacks that already received their answer (the `delivered` log is only
appended to), and leaves the pending-send queue empty. -/
theorem c6_close_fails_pending_once (s : DState) (n : Nat) :
    drun s (List.replicate (n + 1) DOp.closeEvt) =
      some { s with
              connected := false
              closeNotifies := s.closeNotifies + (if s.connected then 1 else 0)
              delivered := s.delivered ++
               s.sendcbs.map (fun c => (c, Outcome.closedBeforeConfirm))
              sendcbs := [] } := by
  induction n generalizing s with
  | zero =>
    cases hc : s.connected <;>
      simp [drun, dstep, onClose, hc]
  | succ n ih =>
    have step1 : drun s (List.replicate (n + 1 + 1) DOp.closeEvt) =
        drun (onClose s) (List.replicate (n + 1) DOp.closeEvt) := by
      rw [List.replicate_succ]
      rfl
    rw [step1, ih (onClose s)]
    cases hc : s.connected <;>
      simp [onClose, hc]

/-! ## C8: identity mismatch stops the supervisor for good -/

/-- Supervisor invariants: a pending retry timer only exists in the `waiting`
state, and an outstanding `connectRaw` only while `connecting` (or after a
`close()` raced it into `stopped`). -/
theorem reachableR_inv {s : RState} (h : ReachableR s) :
    (s.timer = true → s.phase = Phase.waiting) ∧
    (s.pendingConnect = true → s.phase = Phase.connecting ∨ s.phase = Phase.stopped) := by
  induction h with
  | init => simp [initialR]
  | step e hs hf ih =>
    rename_i s
    obtain ⟨ih1, ih2⟩ := ih
    cases e with
    | timerFire =>
      revert hf
      simp only [rstep]
      split
      · exact fun _ => ⟨ih1, ih2⟩
      · split
        · intro hf
          simp at hf
        · intro _
          constructor
          · intro ht
            simp at ht
          · intro _
            exact Or.inl rfl
    | closeCalled =>
      refine ⟨fun ht => ?_, fun _ => Or.inr rfl⟩
      simp only [rstep] at ht
      simp at ht
    | connectResult res =>
      revert hf
      simp only [rstep]
      split
      · exact fun _ => ⟨ih1, ih2⟩
      · rename_i hpend
        have hpend' : s.pendingConnect = true := by
          revert hpend
          cases s.pendingConnect <;> simp
        have htimer : s.timer = false := by
          cases ht : s.timer
          · rfl
          · exfalso
            have h1 := ih1 ht
            rcases ih2 hpend' with h2 | h2 <;> rw [h1] at h2 <;> simp at h2
        split
        · intro _
          constructor
          · intro ht
            simp [htimer] at ht
          · intro hp
            simp at hp
        · split
          · intro _
            exact ⟨fun _ => rfl, fun hp => by simp at hp⟩
          · split
            · intro hf
              simp at hf
            · split
              · intro _
                constructor
                · intro ht
                  simp [htimer] at ht
                · intro hp
                  simp at hp
              · split
                · intro _
                  constructor
                  · intro ht
                    simp [htimer] at ht
                  · intro hp
                    simp at hp
                · intro _
                  constructor
                  · intro ht
                    simp [htimer] at ht
                  · intro hp
                    simp at hp
    | subscribeCalled v =>
      revert hf
      simp only [rstep]
      split
      · exact fun _ => ⟨ih1, ih2⟩
      · exact fun _ => ⟨ih1, ih2⟩

/-- C8: (1) when an established connection reports a `source` different from
the previously observed identity, the supervisor moves to `stopped`, drops the
new connection, and initiates nothing; (2) from any reachable `stopped` state,
no event — timer fire, late connect callback, `close()`, `subscribe()` — ever
initiates another connection attempt or leaves `stopped`. -/
theorem c8_identity_mismatch_is_terminal :
    (∀ (s : RState) (src : Nat),
        s.pendingConnect = true → s.phase ≠ Phase.stopped → s.client = none →
        s.apiSource ≠ none → s.apiSource ≠ some src →
        (rstep s (.connectResult (some src))).st.phase = Phase.stopped ∧
        (rstep s (.connectResult (some src))).st.client = none ∧
        (rstep s (.connectResult (some src))).initiated = false) ∧
    (∀ (s : RState), ReachableR s → s.phase = Phase.stopped →
        ∀ e, (rstep s e).initiated = false ∧ (rstep s e).st.phase = Phase.stopped) := by
  constructor
  · intro s src h1 h2 h3 h4 h5
    simp only [rstep]
    rw [if_neg (by simp [h1])]
    rw [if_neg (by simpa using h2)]
    rw [if_neg (by simp [h3])]
    rw [if_pos (by exact ⟨by simpa using h4, by simpa using h5⟩)]
    exact ⟨rfl, rfl, rfl⟩
  · intro s hr hstop e
    have inv := reachableR_inv hr
    cases e with
    | timerFire =>
      cases ht : s.timer with
      | false => simp [rstep, ht, hstop]
      | true =>
        have := inv.1 ht
        rw [hstop] at this
        simp at this
    | connectResult res =>
      cases hp : s.pendingConnect with
      | false => simp [rstep, hp, hstop]
      | true => simp [rstep, hp, hstop]
    | closeCalled => simp [rstep]
    | subscribeCalled v =>
      cases hw : s.wantSubFromV with
      | none => simp [rstep, hw, hstop]
      | some w => simp [rstep, hw, hstop]

/-- A concrete supervisor state that connected once (observing source 5) and
was then closed: reachable and `stopped`. -/
def c8stopped : RState :=
  (rstep (rstep initialR (REvent.connectResult (some 5))).st REvent.closeCalled).st

/-- A concrete supervisor state mid-reconnect that previously observed
source 1. -/
def c8mismatch : RState :=
  { phase := Phase.connecting, client := none, timer := false, pendingConnect := true
  , apiSource := some 1, callbackCalled := true, wantSubFromV := none }

/-- Witness for C8: from the concrete reachable `stopped` state a timer event
initiates nothing and stays `stopped`; and a reconnect reporting source 2
against remembered source 1 stops the supervisor. -/
theorem c8_identity_mismatch_is_terminal_witness :
    ((rstep c8stopped REvent.timerFire).initiated = false ∧
     (rstep c8stopped REvent.timerFire).st.phase = Phase.stopped) ∧
    ((rstep c8mismatch (.connectResult (some 2))).st.phase = Phase.stopped ∧
     (rstep c8mismatch (.connectResult (some 2))).st.client = none ∧
     (rstep c8mismatch (.connectResult (some 2))).initiated = false) := by
  constructor
  · have hr : ReachableR c8stopped :=
      ReachableR.step REvent.closeCalled
        (ReachableR.step (REvent.connectResult (some 5)) ReachableR.init (by decide))
        (by decide)
    exact c8_identity_mismatch_is_terminal.2 c8stopped hr (by decide) REvent.timerFire
  · exact c8_identity_mismatch_is_terminal.1 c8mismatch 2 (by decide) (by decide)
      (by decide) (by decide) (by decide)

end Prozess
